import Mathlib

/-!
Verification development for a Pokerdom → PokerStars hand-history converter
(`converter.py`).  The core pipeline is embedded shallowly:

* Python regular-expression patterns are transcribed, construct by construct,
  into a small nondeterministic matcher type `MP` whose candidate lists encode
  the backtracking priority order of the Python `re` engine (greedy
  quantifiers produce longest-first candidates, lazy quantifiers
  shortest-first, alternations left-first); a pattern match is the head of the
  candidate list, which is exactly the leftmost / backtracking-first match.
* Python `float` amounts are modelled as exact rationals (`ℚ`); the numeric
  tokens fed to `float` by the converter are regex-vetted decimal literals,
  for which the model agrees with IEEE parsing followed by `"%.2f"`
  formatting whenever the token has at most two fractional digits (the money
  grammar of the source format).
* Python exceptions are modelled with `Option`: a code path that can raise
  returns `none` where the exception would propagate.
* `str.strip`, `str.rstrip`, `str.splitlines`, `str.lower`/`upper` are
  modelled on `List Char`; `splitlines` is modelled for the newline
  character, the only line separator used by the data of this converter.
-/

namespace Converter

/-- The apostrophe character (written via its code point). -/
def aposC : Char := Char.ofNat 39

/-- The em-dash character used by the `max_players` pattern. -/
def emdashC : Char := Char.ofNat 8212

/-- String made from a list of characters. -/
def strOf (l : List Char) : String := ⟨l⟩

/-- String from an optional single character (an empty regex group gives ""). -/
def strOfOpt : Option Char → String
  | some c => strOf [c]
  | none => ""

/-- Whitespace test, modelling the `\s` class / Python `str.strip` default. -/
def wsC (c : Char) : Bool := c.isWhitespace

/-- ASCII decimal digit, modelling the `\d` class. -/
def digitC (c : Char) : Bool := c.isDigit

/-- The regex `.` metacharacter: any character except the newline. -/
def dotC (c : Char) : Bool := c != '\n'

/-- The currency class `[$€£¥]` of the money patterns. -/
def curC (c : Char) : Bool := (c == '$') || (c == '€') || (c == '£') || (c == '¥')

/-- Left strip on characters (Python `str.lstrip()` for whitespace). -/
def lstripL (l : List Char) : List Char := l.dropWhile wsC

/-- Right strip on characters (Python `str.rstrip()` for whitespace). -/
def rstripL (l : List Char) : List Char := (l.reverse.dropWhile wsC).reverse

/-- Python `str.strip()`. -/
def pyStrip (s : String) : String := strOf (lstripL (rstripL s.data))

/-- Python `str.rstrip()`. -/
def pyRstrip (s : String) : String := strOf (rstripL s.data)

/-- Python `str.lower()` (ASCII case mapping, which covers this format). -/
def toLowerStr (s : String) : String := strOf (s.data.map Char.toLower)

/-- Python `str.upper()` (ASCII case mapping, which covers this format). -/
def toUpperStr (s : String) : String := strOf (s.data.map Char.toUpper)

/-- Containment of `pat` in `l` as a contiguous run (Python `pat in s`). -/
def listContains (pat l : List Char) : Bool := l.tails.any (fun t => pat.isPrefixOf t)

/-- Python substring containment `pat in s`. -/
def containsSub (s pat : String) : Bool := listContains pat.data s.data

/-- Python `str.splitlines` on characters, for the `\n` separator. -/
def splitlinesL : List Char → List (List Char)
  | [] => []
  | c :: l =>
    if c = '\n' then [] :: splitlinesL l
    else
      match splitlinesL l with
      | [] => [[c]]
      | x :: xs => (c :: x) :: xs

/-- Python `str.splitlines` (for `\n`-separated text). -/
def splitlines (s : String) : List String := (splitlinesL s.data).map strOf

/-- `normalize_name`: `name.strip().rstrip(":")` — strip whitespace, then all
trailing colons. -/
def normalizeName (s : String) : String :=
  strOf (((pyStrip s).data.reverse.dropWhile (fun c => c == ':')).reverse)

/-!  ## A tiny backtracking matcher

`MP α` is a nondeterministic parser over characters: it returns the list of
all `(value, remaining input)` pairs, ordered by the backtracking priority of
the Python `re` engine.  Each converter pattern below is a construct-by-
construct transcription of the corresponding regular expression; the overall
match (`re.search` on an anchored pattern) is the head of the candidate
list. -/

/-- Nondeterministic matcher: candidate results in priority order. -/
def MP (α : Type) : Type := List Char → List (α × List Char)

/-- `pure` for `MP`. -/
def mpPure {α : Type} (a : α) : MP α := fun l => [(a, l)]

/-- `bind` for `MP`: all continuations of all candidates, in priority order. -/
def mpBind {α β : Type} (m : MP α) (f : α → MP β) : MP β :=
  fun l => (m l).flatMap (fun p => f p.1 p.2)

instance : Monad MP where
  pure := mpPure
  bind := mpBind

/-- Ordered alternation (`|` in a regex: left alternative first). -/
def mor {α : Type} (a b : MP α) : MP α := fun l => a l ++ b l

/-- Single character from a class (`[...]`). -/
def chClass (p : Char → Bool) : MP Char := fun l =>
  match l with
  | [] => []
  | c :: r => if p c then [(c, r)] else []

/-- Helper for case-insensitive literals: `pat` is given in lowercase. -/
def litCIgo : List Char → List Char → Option (List Char × List Char)
  | [], l => some ([], l)
  | _ :: _, [] => none
  | p :: ps, c :: cs =>
    if c.toLower = p then (litCIgo ps cs).map (fun q => (c :: q.1, q.2)) else none

/-- Case-insensitive literal (the patterns are compiled with `re.IGNORECASE`);
returns the original matched slice, as a regex group would capture it. -/
def litCI (pat : List Char) : MP (List Char) := fun l =>
  match litCIgo pat l with
  | some pr => [pr]
  | none => []

/-- All splits of a maximal run of `p`-characters, longest first: the
candidate order of a greedy `p*`. -/
def greedySplits (p : Char → Bool) : List Char → List (List Char × List Char)
  | [] => [([], [])]
  | c :: l =>
    if p c then (greedySplits p l).map (fun q => (c :: q.1, q.2)) ++ [([], c :: l)]
    else [([], c :: l)]

/-- Splits shortest first: the candidate order of a lazy `p*?`. -/
def lazySplits (p : Char → Bool) : List Char → List (List Char × List Char)
  | [] => [([], [])]
  | c :: l =>
    ([], c :: l) :: (if p c then (lazySplits p l).map (fun q => (c :: q.1, q.2)) else [])

/-- Greedy `p*`. -/
def starGreedy (p : Char → Bool) : MP (List Char) := fun l => greedySplits p l

/-- Greedy `p+`. -/
def plusGreedy (p : Char → Bool) : MP (List Char) := fun l =>
  (greedySplits p l).filter (fun q => !q.1.isEmpty)

/-- Lazy `p*?`. -/
def starLazy (p : Char → Bool) : MP (List Char) := fun l => lazySplits p l

/-- Lazy `p+?`. -/
def plusLazy (p : Char → Bool) : MP (List Char) := fun l =>
  (lazySplits p l).filter (fun q => !q.1.isEmpty)

/-- Greedy optional character class (`[...]?`): present first. -/
def optC (p : Char → Bool) : MP (Option Char) := fun l =>
  match l with
  | [] => [(none, [])]
  | c :: r => if p c then [(some c, r), (none, c :: r)] else [(none, c :: r)]

/-- Exactly `n` characters of a class (`[...]{n}`). -/
def repC (p : Char → Bool) : Nat → MP (List Char)
  | 0 => pure []
  | n + 1 => do
    let c ← chClass p
    let r ← repC p n
    pure (c :: r)

/-- The numeric token `\d+(?:\.\d+)?` with the `re` candidate order:
longest digit run first; for each, fractional-part present (longest
fraction first) before absent. -/
def numTokM : MP (List Char) := fun l =>
  ((greedySplits digitC l).filter (fun q => !q.1.isEmpty)).flatMap (fun q =>
    (match q.2 with
     | c :: r2 =>
       if c = '.' then
         ((greedySplits digitC r2).filter (fun w => !w.1.isEmpty)).map
           (fun w => (q.1 ++ '.' :: w.1, w.2))
       else []
     | [] => []) ++ [q])

/-- Anchored match (`re.search` with a `^`-anchored pattern, no MULTILINE):
the backtracking-first candidate at position 0. -/
def runAnchored {α : Type} (m : MP α) (s : String) : Option α :=
  ((m s.data).head?).map (fun p => p.1)

/-- Unanchored `re.search`: leftmost starting position wins, then the
backtracking order at that position. -/
def searchPos {α : Type} (m : MP α) : List Char → Option α
  | [] =>
    match (m []).head? with
    | some p => some p.1
    | none => none
  | c :: t =>
    match (m (c :: t)).head? with
    | some p => some p.1
    | none => searchPos m t

/-!  ## The patterns of the converter

Each definition below transcribes one entry of `PokerdomParser.PATTERNS`
construct by construct (all are compiled with `re.IGNORECASE`; all but
`max_players` are `^`-anchored, so `re.search` is an anchored match). -/

/-- The Holdem alternation: the literal with an apostrophe, or without it. -/
def holdemAltP : MP (List Char) :=
  mor (litCI ['h', 'o', 'l', 'd', aposC, 'e', 'm']) (litCI ['h', 'o', 'l', 'd', 'e', 'm'])

/-- Captures shared by the two header patterns (`hid`/`game` are captured by
only one of them, so they are optional here, matching `m.groupdict()`). -/
structure HeaderCaps where
  hid : Option String
  sb : String
  bb : String
  date : String
  game : Option String
  deriving DecidableEq, Repr

/-- `hand_header`: anchored `Game`, `\s*`, optional `#` or `:`, `\s*`, the
digits of `hid`, `.*`, the Holdem alternation, `.*`, `sb` as a numeric token,
one slash-or-space, `bb` as a numeric token, `.*`, and `date` captured as
4 digits, dash-or-slash, 2 digits, dash-or-slash, 2 digits, `.*`, then
`hh:mm:ss` as 2-digit fields separated by colons. -/
def handHeaderP : MP HeaderCaps := do
  let _ ← litCI ['g', 'a', 'm', 'e']
  let _ ← starGreedy wsC
  let _ ← optC (fun c => (c == '#') || (c == ':'))
  let _ ← starGreedy wsC
  let hid ← plusGreedy digitC
  let _ ← starGreedy dotC
  let _ ← holdemAltP
  let _ ← starGreedy dotC
  let sb ← numTokM
  let _ ← chClass (fun c => (c == '/') || (c == ' '))
  let bb ← numTokM
  let _ ← starGreedy dotC
  let d1 ← repC digitC 4
  let s1 ← chClass (fun c => (c == '-') || (c == '/'))
  let d2 ← repC digitC 2
  let s2 ← chClass (fun c => (c == '-') || (c == '/'))
  let d3 ← repC digitC 2
  let mid ← starGreedy dotC
  let t1 ← repC digitC 2
  let c1 ← chClass (fun c => c == ':')
  let t2 ← repC digitC 2
  let c2 ← chClass (fun c => c == ':')
  let t3 ← repC digitC 2
  pure { hid := some (strOf hid), sb := strOf sb, bb := strOf bb,
         date := strOf (d1 ++ s1 :: d2 ++ s2 :: d3 ++ mid ++ t1 ++ c1 :: t2 ++ c2 :: t3),
         game := none }

/-- `alt_header`: anchored `date` captured as 4 digits, dot-slash-or-dash
separator, 2 digits, separator, 2 digits; then lazy `.*?`, a literal dash,
`\s*`, the captured Holdem alternation as `game`, `.*`, `sb` as a numeric
token, one non-digit character, and `bb` as a numeric token. -/
def altHeaderP : MP HeaderCaps := do
  let d1 ← repC digitC 4
  let s1 ← chClass (fun c => (c == '.') || (c == '/') || (c == '-'))
  let d2 ← repC digitC 2
  let s2 ← chClass (fun c => (c == '.') || (c == '/') || (c == '-'))
  let d3 ← repC digitC 2
  let _ ← starLazy dotC
  let _ ← chClass (fun c => c == '-')
  let _ ← starGreedy wsC
  let g ← holdemAltP
  let _ ← starGreedy dotC
  let sb ← numTokM
  let _ ← chClass (fun c => !c.isDigit)
  let bb ← numTokM
  pure { hid := none, sb := strOf sb, bb := strOf bb,
         date := strOf (d1 ++ s1 :: d2 ++ s2 :: d3), game := some (strOf g) }

/-- Captures of `table_btn`. -/
structure TableCaps where
  table : String
  button : String
  deriving DecidableEq, Repr

/-- `table_btn`: anchored `Table`, `\s+`, an optional apostrophe, `table` captured as one-or-more non-apostrophe characters, an optional apostrophe, `.*`, `Seat`, `\s+`, a hash mark, and the digits of `button`. -/
def tableBtnP : MP TableCaps := do
  let _ ← litCI ['t', 'a', 'b', 'l', 'e']
  let _ ← plusGreedy wsC
  let _ ← optC (fun c => c == aposC)
  let tb ← plusGreedy (fun c => c != aposC)
  let _ ← optC (fun c => c == aposC)
  let _ ← starGreedy dotC
  let _ ← litCI ['s', 'e', 'a', 't']
  let _ ← plusGreedy wsC
  let _ ← chClass (fun c => c == '#')
  let bt ← plusGreedy digitC
  pure { table := strOf tb, button := strOf bt }

/-- Captures of `seat`. -/
structure SeatCaps where
  num : String
  name : String
  cur : String
  stack : String
  deriving DecidableEq, Repr

/-- `seat`:
`^Seat\s+(?P<num>\d+):\s+(?P<name>.+?)\s+\((?P<cur>[$€£¥]?)(?P<stack>\d+(?:\.\d+)?)\)` -/
def seatP : MP SeatCaps := do
  let _ ← litCI ['s', 'e', 'a', 't']
  let _ ← plusGreedy wsC
  let n ← plusGreedy digitC
  let _ ← chClass (fun c => c == ':')
  let _ ← plusGreedy wsC
  let nm ← plusLazy dotC
  let _ ← plusGreedy wsC
  let _ ← chClass (fun c => c == '(')
  let cu ← optC curC
  let stk ← numTokM
  let _ ← chClass (fun c => c == ')')
  pure { num := strOf n, name := strOf nm, cur := strOfOpt cu, stack := strOf stk }

/-- Captures of `posts`. -/
structure PostsCaps where
  name : String
  which : String
  cur : String
  amt : String
  deriving DecidableEq, Repr

/-- `posts`:
`^(?P<name>.+?):\s+posts\s+(?P<which>small blind|big blind)\s+(?P<cur>[$€£¥]?)(?P<amt>\d+(?:\.\d+)?)` -/
def postsP : MP PostsCaps := do
  let nm ← plusLazy dotC
  let _ ← chClass (fun c => c == ':')
  let _ ← plusGreedy wsC
  let _ ← litCI ['p', 'o', 's', 't', 's']
  let _ ← plusGreedy wsC
  let wh ← mor (litCI ['s', 'm', 'a', 'l', 'l', ' ', 'b', 'l', 'i', 'n', 'd'])
              (litCI ['b', 'i', 'g', ' ', 'b', 'l', 'i', 'n', 'd'])
  let _ ← plusGreedy wsC
  let cu ← optC curC
  let am ← numTokM
  pure { name := strOf nm, which := strOf wh, cur := strOfOpt cu, amt := strOf am }

/-- The card-rank class `[2-9TJQKA]` (case-insensitive). -/
def rankC (c : Char) : Bool :=
  (('2' ≤ c) && (c ≤ '9')) || (c.toLower == 't') || (c.toLower == 'j') ||
    (c.toLower == 'q') || (c.toLower == 'k') || (c.toLower == 'a')

/-- The card-suit class `[cdhs]` (case-insensitive). -/
def suitC (c : Char) : Bool :=
  (c.toLower == 'c') || (c.toLower == 'd') || (c.toLower == 'h') || (c.toLower == 's')

/-- Captures of `dealt`. -/
structure DealtCaps where
  name : String
  cards : String
  deriving DecidableEq, Repr

/-- `dealt`:
`^Dealt to\s+(?P<name>.+?)\s+\[(?P<cards>[2-9TJQKA][cdhs]\s+[2-9TJQKA][cdhs])\]` -/
def dealtP : MP DealtCaps := do
  let _ ← litCI ['d', 'e', 'a', 'l', 't', ' ', 't', 'o']
  let _ ← plusGreedy wsC
  let nm ← plusLazy dotC
  let _ ← plusGreedy wsC
  let _ ← chClass (fun c => c == '[')
  let r1 ← chClass rankC
  let u1 ← chClass suitC
  let sp ← plusGreedy wsC
  let r2 ← chClass rankC
  let u2 ← chClass suitC
  let _ ← chClass (fun c => c == ']')
  pure { name := strOf nm, cards := strOf (r1 :: u1 :: sp ++ [r2, u2]) }

/-- Captures of `street`. -/
structure StreetCaps where
  street : String
  board : Option String
  deriving DecidableEq, Repr

/-- The alternation `(HOLE CARDS|FLOP|TURN|RIVER|SHOW DOWN|SHOWDOWN|SUMMARY)`. -/
def streetAltP : MP (List Char) :=
  mor (litCI "hole cards".toList)
    (mor (litCI "flop".toList)
      (mor (litCI "turn".toList)
        (mor (litCI "river".toList)
          (mor (litCI "show down".toList)
            (mor (litCI "showdown".toList) (litCI "summary".toList))))))

/-- The optional board group `(?:\s+\[(?P<board>[^\]]+)\])?` (greedy: present
first). -/
def optBoardP : MP (Option String) :=
  mor
    (do
      let _ ← plusGreedy wsC
      let _ ← chClass (fun c => c == '[')
      let bd ← plusGreedy (fun c => c != ']')
      let _ ← chClass (fun c => c == ']')
      pure (some (strOf bd)))
    (pure none)

/-- `street`:
`^\*{3}\s+(?P<street>HOLE CARDS|FLOP|TURN|RIVER|SHOW DOWN|SHOWDOWN|SUMMARY)\s+\*{3}(?:\s+\[(?P<board>[^\]]+)\])?` -/
def streetP : MP StreetCaps := do
  let _ ← repC (fun c => c == '*') 3
  let _ ← plusGreedy wsC
  let st ← streetAltP
  let _ ← plusGreedy wsC
  let _ ← repC (fun c => c == '*') 3
  let b ← optBoardP
  pure { street := strOf st, board := b }

/-- Captures of `action` (`cur`/`amt` sit in one optional group). -/
structure ActionCaps where
  name : String
  verb : String
  cur : String
  amt : Option String
  deriving DecidableEq, Repr

/-- The verb alternation
`(folds|calls|checks|bets|raises to|raises|collected)` in source order. -/
def verbAltP : MP (List Char) :=
  mor (litCI "folds".toList)
    (mor (litCI "calls".toList)
      (mor (litCI "checks".toList)
        (mor (litCI "bets".toList)
          (mor (litCI "raises to".toList)
            (mor (litCI "raises".toList) (litCI "collected".toList))))))

/-- The optional amount group `(?:\s+(?P<cur>[$€£¥]?)(?P<amt>\d+(?:\.\d+)?))?`
(greedy: present first). -/
def optAmtP : MP (String × Option String) :=
  mor
    (do
      let _ ← plusGreedy wsC
      let cu ← optC curC
      let am ← numTokM
      pure (strOfOpt cu, some (strOf am)))
    (pure ("", none))

/-- `action`:
`^(?P<name>.+?):\s+(?P<verb>folds|calls|checks|bets|raises to|raises|collected)(?:\s+(?P<cur>[$€£¥]?)(?P<amt>\d+(?:\.\d+)?))?` -/
def actionP : MP ActionCaps := do
  let nm ← plusLazy dotC
  let _ ← chClass (fun c => c == ':')
  let _ ← plusGreedy wsC
  let vb ← verbAltP
  let ap ← optAmtP
  pure { name := strOf nm, verb := strOf vb, cur := ap.1, amt := ap.2 }

/-- Captures of `show`. -/
structure ShowCaps where
  name : String
  cards : String
  deriving DecidableEq, Repr

/-- `show`: `^(?P<name>.+?)\s+showed\s+\[(?P<cards>[^\]]+)\]` -/
def showP : MP ShowCaps := do
  let nm ← plusLazy dotC
  let _ ← plusGreedy wsC
  let _ ← litCI "showed".toList
  let _ ← plusGreedy wsC
  let _ ← chClass (fun c => c == '[')
  let cd ← plusGreedy (fun c => c != ']')
  let _ ← chClass (fun c => c == ']')
  pure { name := strOf nm, cards := strOf cd }

/-- Captures of `collected`. -/
structure CollCaps where
  name : String
  cur : String
  amt : String
  deriving DecidableEq, Repr

/-- `collected`: `^(?P<name>.+?)\s+collected\s+(?P<cur>[$€£¥]?)(?P<amt>\d+(?:\.\d+)?)` -/
def collectedP : MP CollCaps := do
  let nm ← plusLazy dotC
  let _ ← plusGreedy wsC
  let _ ← litCI "collected".toList
  let _ ← plusGreedy wsC
  let cu ← optC curC
  let am ← numTokM
  pure { name := strOf nm, cur := strOfOpt cu, amt := strOf am }

/-- `max_players`: `(-|—)\s*(?P<max>[0-9])max` (the only unanchored search). -/
def maxPlayersP : MP Char := do
  let _ ← mor (litCI ['-']) (litCI [emdashC])
  let _ ← starGreedy wsC
  let mx ← chClass (fun c => ('0' ≤ c) && (c ≤ '9'))
  let _ ← litCI "max".toList
  pure mx

/-- `PATTERNS["hand_header"].search(line)`. -/
def matchHandHeader (s : String) : Option HeaderCaps := runAnchored handHeaderP s

/-- `PATTERNS["alt_header"].search(line)`. -/
def matchAltHeader (s : String) : Option HeaderCaps := runAnchored altHeaderP s

/-- `PATTERNS["table_btn"].search(line)`. -/
def matchTableBtn (s : String) : Option TableCaps := runAnchored tableBtnP s

/-- `PATTERNS["seat"].search(line)`. -/
def matchSeat (s : String) : Option SeatCaps := runAnchored seatP s

/-- `PATTERNS["posts"].search(line)`. -/
def matchPosts (s : String) : Option PostsCaps := runAnchored postsP s

/-- `PATTERNS["dealt"].search(line)`. -/
def matchDealt (s : String) : Option DealtCaps := runAnchored dealtP s

/-- `PATTERNS["street"].search(line)`. -/
def matchStreet (s : String) : Option StreetCaps := runAnchored streetP s

/-- `PATTERNS["action"].search(line)`. -/
def matchAction (s : String) : Option ActionCaps := runAnchored actionP s

/-- `PATTERNS["show"].search(line)`. -/
def matchShow (s : String) : Option ShowCaps := runAnchored showP s

/-- `PATTERNS["collected"].search(line)`. -/
def matchCollected (s : String) : Option CollCaps := runAnchored collectedP s

/-- `PATTERNS["max_players"].search(line)`, already converted with `int`. -/
def matchMaxPlayers (s : String) : Option Nat :=
  (searchPos maxPlayersP s.data).map (fun c => c.toNat - 48)

/-!  ## Numbers

Python `float` values are modelled as exact rationals.  `safe_float` and
`parse_money` are only ever fed regex-vetted decimal tokens by the
converter, so the numeric-string grammar modelled here is the sign-digits-
optional-fraction form those tokens take. -/

/-- Value of a digit run. -/
def intVal (l : List Char) : Nat := l.foldl (fun a c => a * 10 + (c.toNat - 48)) 0

/-- Parse a decimal literal (optional minus, digits, optional dot and
fraction digits) to an exact rational; `none` where Python `float` raises. -/
def parseDecQ (s : String) : Option ℚ :=
  let l := s.data
  let neg : Bool := match l with | c :: _ => c = '-' | [] => false
  let l1 := if neg then l.tail else l
  let ip := l1.takeWhile digitC
  let rest := l1.dropWhile digitC
  if ip.isEmpty then none
  else
    let mk : Nat → Nat → ℚ := fun n d => if neg then Rat.neg (mkRat n d) else mkRat n d
    match rest with
    | [] => some (mk (intVal ip) 1)
    | c :: fr =>
      if c = '.' && fr.all digitC then
        some (mk (intVal ip * 10 ^ fr.length + intVal fr) (10 ^ fr.length))
      else none

/-- `safe_float`: `float(s)` with default `0.0` on failure. -/
def safeFloat (s : String) : ℚ := (parseDecQ s).getD 0

/-- `int()` on a regex-vetted digit string. -/
def natOf (s : String) : Nat := intVal s.data

/-- The token `-?\d+(?:\.\d+)?` taken greedily at the start of the input
(used only by `parse_money` below). -/
def numTokSignedTake (l : List Char) : Option (List Char) :=
  let sgn : List Char := match l with | c :: _ => if c = '-' then [c] else [] | [] => []
  let l1 := l.drop sgn.length
  let ds := l1.takeWhile digitC
  if ds.isEmpty then none
  else
    match l1.drop ds.length with
    | c :: r2 =>
      if c = '.' && !(r2.takeWhile digitC).isEmpty then
        some (sgn ++ ds ++ c :: r2.takeWhile digitC)
      else some (sgn ++ ds)
    | [] => some (sgn ++ ds)

/-- `parse_money`: optional currency glyph, optional space, decimal number;
raises (here: `none`) when the token does not start that way.  This helper
is defined by the source but never invoked by the parsing pipeline. -/
def parse_money (token : String) : Option (String × ℚ) :=
  let t := pyStrip token
  let (cur, rest) : String × List Char :=
    match t.data with
    | c :: r => if curC c then (strOf [c], r) else ("", t.data)
    | [] => ("", [])
  let rest1 := match rest with | c :: r => if c = ' ' then r else rest | [] => rest
  let numTok := (numTokSignedTake rest1)
  match numTok with
  | some n => some ((if cur = "" then "$" else cur), safeFloat (strOf n))
  | none => none

/-- Round `n / d` (with `d` positive) to the nearest integer, ties to even —
the rounding of Python `"%.2f"` formatting on exactly representable values.
Stated on numerator and denominator so it computes with integer arithmetic:
the floor is `n.fdiv d`, and the remainder `rem` compares to one half of `d`
via `2 * rem` against `d`. -/
def rhe (n : ℤ) (d : ℕ) : ℤ :=
  let f := n.fdiv d
  let rem := n - f * d
  if 2 * rem < (d : ℤ) then f
  else if (d : ℤ) < 2 * rem then f + 1
  else if f % 2 = 0 then f else f + 1

/-- Two-digit zero-padded numeral. -/
def pad2 (n : Nat) : String := (if n < 10 then "0" else "") ++ toString n

/-- Four-digit zero-padded numeral. -/
def pad4 (n : Nat) : String :=
  (if n < 10 then "000" else if n < 100 then "00" else if n < 1000 then "0" else "") ++
    toString n

/-- Python `f"{x:.2f}"` on the rational model of a float: round `100 * q`
half-to-even and print with two fractional digits. -/
def fmt2 (q : ℚ) : String :=
  let n : ℤ := rhe (100 * q.num) q.den
  let a : Nat := n.natAbs
  let s := toString (a / 100) ++ "." ++ pad2 (a % 100)
  if n < 0 then "-" ++ s else s

/-!  ## Timestamps

`datetime` values are a plain record; `_try_parse_dt` tries the same five
`strptime` formats in order.  `%Z` is modelled as accepting the UTC and GMT
abbreviations (a representative subset of the platform-dependent set Python
accepts); the claims below do not depend on this choice. -/

/-- The `datetime` value as used by the converter (UTC-naive). -/
structure PyDateTime where
  year : Nat
  month : Nat
  day : Nat
  hour : Nat
  minute : Nat
  second : Nat
  deriving DecidableEq, Repr

/-- Leap-year rule of the Gregorian calendar. -/
def isLeap (y : Nat) : Bool := (y % 4 == 0 && y % 100 != 0) || (y % 400 == 0)

/-- Days in a month, as validated by the `datetime` constructor. -/
def daysInMonth (y m : Nat) : Nat :=
  if m = 1 || m = 3 || m = 5 || m = 7 || m = 8 || m = 10 || m = 12 then 31
  else if m = 2 then (if isLeap y then 29 else 28)
  else 30

/-- The `datetime(...)` constructor: validates field ranges. -/
def mkDT (y mo d h mi s : Nat) : Option PyDateTime :=
  if 1 ≤ y && y ≤ 9999 && 1 ≤ mo && mo ≤ 12 && 1 ≤ d && d ≤ daysInMonth y mo &&
      h ≤ 23 && mi ≤ 59 && s ≤ 59 then
    some ⟨y, mo, d, h, mi, s⟩
  else none

/-- One numeric `strptime` field: up to `mx` digits, at least one. -/
def takeDigits (mx : Nat) (l : List Char) : Option (Nat × List Char) :=
  let ds := (l.takeWhile digitC).take mx
  if ds.isEmpty then none else some (intVal ds, l.drop ds.length)

/-- A literal character in a `strptime` format. -/
def expectC (c : Char) (l : List Char) : Option (List Char) :=
  match l with
  | x :: r => if x = c then some r else none
  | [] => none

/-- Case-insensitive equality of character lists. -/
def eqCI (a b : List Char) : Bool := a.map Char.toLower == b.map Char.toLower

/-- `strptime` with format year-sep-month-sep-day space hour:minute:second,
optionally followed by a space and a `%Z` timezone name. -/
def parseDateWith (sep : Char) (withTZ : Bool) (s : String) : Option PyDateTime := do
  let (y, l) ← takeDigits 4 s.data
  let l ← expectC sep l
  let (mo, l) ← takeDigits 2 l
  let l ← expectC sep l
  let (d, l) ← takeDigits 2 l
  let l ← expectC ' ' l
  let (h, l) ← takeDigits 2 l
  let l ← expectC ':' l
  let (mi, l) ← takeDigits 2 l
  let l ← expectC ':' l
  let (se, l) ← takeDigits 2 l
  if withTZ then
    let l ← expectC ' ' l
    if eqCI l "utc".toList || eqCI l "gmt".toList then mkDT y mo d h mi se else none
  else
    match l with
    | [] => mkDT y mo d h mi se
    | _ :: _ => none

/-- `_try_parse_dt`: the five formats, first success wins, else `None`. -/
def tryParseDt (s : String) : Option PyDateTime :=
  (parseDateWith '-' false s).orElse fun _ =>
    (parseDateWith '/' false s).orElse fun _ =>
      (parseDateWith '.' false s).orElse fun _ =>
        (parseDateWith '-' true s).orElse fun _ =>
          parseDateWith '/' true s

/-- `strftime("%Y/%m/%d %H:%M:%S ET")`. -/
def strftimeET (d : PyDateTime) : String :=
  pad4 d.year ++ "/" ++ pad2 d.month ++ "/" ++ pad2 d.day ++ " " ++ pad2 d.hour ++
    ":" ++ pad2 d.minute ++ ":" ++ pad2 d.second ++ " ET"

/-!  ## The data model -/

/-- `Seat` dataclass. -/
structure Seat where
  num : Nat
  name : String
  stack : Option ℚ := none
  deriving DecidableEq, Repr

/-- `Action` dataclass (`to_amount` is never assigned by the converter but
is part of the model). -/
structure Action where
  street : String
  actor : String
  verb : String
  amount : Option ℚ := none
  to_amount : Option ℚ := none
  cards : Option String := none
  raw : String := ""
  deriving DecidableEq, Repr

/-- The blinds mapping: a dict whose only possible keys are "SB" and "BB". -/
structure Blinds where
  sb : Option (String × ℚ) := none
  bb : Option (String × ℚ) := none
  deriving DecidableEq, Repr

/-- The game-label constant `Hold'em No Limit` (with an apostrophe). -/
def holdemNL : String := "Hold" ++ strOf [aposC] ++ "em No Limit"

/-- `Hand` dataclass with its dataclass defaults.  The `board` dict is an
insertion-ordered association list (Python dict semantics); `pots` is never
populated by the converter. -/
structure Hand where
  site : String := "Pokerdom"
  hand_id : Option String := none
  game : String := holdemNL
  stakes : ℚ × ℚ := (0, 0)
  currency : String := "$"
  date_utc : Option PyDateTime := none
  table_name : Option String := none
  max_players : Option Nat := none
  button_seat : Option Nat := none
  seats : List Seat := []
  blinds : Blinds := {}
  hero : Option String := none
  hero_hole : Option String := none
  board : List (String × String) := []
  actions : List Action := []
  pots : List (String × ℚ) := []
  deriving DecidableEq, Repr

/-- A fresh `Hand()` with all dataclass defaults. -/
def defaultHand : Hand := {}

/-- Python dict assignment `d[k] = v`: update in place if the key exists,
else append (insertion order preserved). -/
def dictInsert (k v : String) (d : List (String × String)) : List (String × String) :=
  if d.any (fun p => p.1 == k) then d.map (fun p => if p.1 == k then (k, v) else p)
  else d ++ [(k, v)]

/-- Python dict lookup `d.get(k, "")`. -/
def dictGet (d : List (String × String)) (k : String) : String :=
  match d.find? (fun p => p.1 == k) with
  | some p => p.2
  | none => ""

/-!  ## The record extractor (`PokerdomParser`) -/

/-- The hole-cards marker used by the segmentation heuristic. -/
def holeMarker : String := "*** HOLE CARDS ***"

/-- One chunk as appended by the segmenter. -/
def chunkOf (buf : List String) : String := pyStrip (String.intercalate "\n" buf)

/-- The segmentation loop of `parse`: a blank line closes the buffer when the
buffer already holds a hole-cards marker line; a trailing non-empty buffer is
emitted as a final chunk. -/
def segLoop : List String → List String → List String → List String
  | chunks, buf, [] => if buf.isEmpty then chunks else chunks ++ [chunkOf buf]
  | chunks, buf, ln :: rest =>
    if pyStrip ln = "" ∧ buf ≠ [] ∧ buf.any (fun b => containsSub b holeMarker) then
      segLoop (chunks ++ [chunkOf buf]) [] rest
    else segLoop chunks (buf ++ [ln]) rest

/-- Segmentation at line granularity. -/
def segLines (ls : List String) : List String := segLoop [] [] ls

/-- The segmenter: split the raw text into per-hand chunks. -/
def segment (t : String) : List String := segLines (splitlines t)

/-- The line set of `_parse_one`: non-blank lines, right-stripped. -/
def cleanLines (t : String) : List String :=
  ((splitlines t).filter (fun l => pyStrip l ≠ "")).map pyRstrip

/-- The header step: try `hand_header` then `alt_header` on the first line;
on a match set id, stakes, date, and re-assign the constant game label when
the alternate shape captured a (non-empty) game name. -/
def headerApply (h : Hand) (ln : String) : Hand :=
  let m : Option HeaderCaps :=
    match matchHandHeader ln with
    | some c => some c
    | none => matchAltHeader ln
  match m with
  | none => h
  | some caps =>
    { h with
      hand_id := caps.hid
      stakes := (safeFloat caps.sb, safeFloat caps.bb)
      date_utc := tryParseDt caps.date
      game := if caps.game.isSome ∧ caps.game ≠ some "" then holdemNL else h.game }

/-- One line of the table/button/max-players scan (both patterns are tried
on the same line, the second on the result of the first). -/
def tableStep (h : Hand) (ln : String) : Hand :=
  let h1 :=
    match matchTableBtn ln with
    | some c => { h with table_name := some (pyStrip c.table), button_seat := some (natOf c.button) }
    | none => h
  match matchMaxPlayers ln with
  | some m => { h1 with max_players := some m }
  | none => h1

/-- The table scan runs over the first eight lines only. -/
def tableScan (h : Hand) (lines : List String) : Hand := (lines.take 8).foldl tableStep h

/-- One line of the seat scan: append a `Seat` per match. -/
def seatStep (h : Hand) (ln : String) : Hand :=
  match matchSeat ln with
  | some c =>
    { h with seats := h.seats ++ [{ num := natOf c.num, name := normalizeName c.name, stack := some (safeFloat c.stack) }] }
  | none => h

/-- One line of the blinds scan: update the SB or BB entry and the currency. -/
def postsStep (h : Hand) (ln : String) : Hand :=
  match matchPosts ln with
  | some c =>
    let nm := normalizeName c.name
    let h1 := if c.cur ≠ "" then { h with currency := c.cur } else h
    let amt := safeFloat c.amt
    if containsSub (toLowerStr c.which) "small" then
      { h1 with blinds := { h1.blinds with sb := some (nm, amt) } }
    else
      { h1 with blinds := { h1.blinds with bb := some (nm, amt) } }
  | none => h

/-- One line of the hero scan: every match overwrites the hero fields. -/
def dealtStep (h : Hand) (ln : String) : Hand :=
  match matchDealt ln with
  | some c => { h with hero := some (normalizeName c.name), hero_hole := some (pyStrip c.cards) }
  | none => h

/-- The street tag entered by a street-marker line (`.upper()` and the
substring tests of the source, in source order). -/
def streetOf (s : String) : String :=
  let tag := toUpperStr s
  if containsSub tag "FLOP" then "FLOP"
  else if containsSub tag "TURN" then "TURN"
  else if containsSub tag "RIVER" then "RIVER"
  else if containsSub tag "SHOW" then "SHOWDOWN"
  else if containsSub tag "SUMMARY" then "SUMMARY"
  else "PREFLOP"

/-- One line of the street/action scan: street markers first, then action,
collected, show — first match wins and the rest are skipped. -/
def scanStep (st : String) (h : Hand) (ln : String) : String × Hand :=
  match matchStreet ln with
  | some caps =>
    let st2 := streetOf caps.street
    let h2 :=
      match caps.board with
      | some b => if b ≠ "" then { h with board := dictInsert st2 ("[" ++ pyStrip b ++ "]") h.board } else h
      | none => h
    (st2, h2)
  | none =>
    match matchAction ln with
    | some caps =>
      let verb0 := toLowerStr caps.verb
      let verb := if containsSub verb0 "raises to" then "raises" else verb0
      let amt : Option ℚ :=
        match caps.amt with
        | some a => if a = "" then none else some (safeFloat a)
        | none => none
      (st, { h with actions := h.actions ++ [{ street := st, actor := normalizeName caps.name, verb := verb, amount := amt, raw := ln }] })
    | none =>
      match matchCollected ln with
      | some caps =>
        (st, { h with actions := h.actions ++ [{ street := "SUMMARY", actor := normalizeName caps.name, verb := "collected", amount := some (safeFloat caps.amt), raw := ln }] })
      | none =>
        match matchShow ln with
        | some caps =>
          (st, { h with actions := h.actions ++ [{ street := "SHOWDOWN", actor := normalizeName caps.name, verb := "showed", cards := some caps.cards, raw := ln }] })
        | none => (st, h)

/-- The full street/action scan, starting from PREFLOP. -/
def streetScan (h : Hand) (lines : List String) : Hand :=
  (lines.foldl (fun p ln => scanStep p.1 p.2 ln) ("PREFLOP", h)).2

/-- `_parse_one`: `None` for a blank chunk, otherwise the record accumulated
by the header step and the five scans. -/
def parseOne (t : String) : Option Hand :=
  let lines := cleanLines t
  match lines with
  | [] => none
  | l0 :: _ =>
    let h0 := headerApply defaultHand l0
    let h1 := tableScan h0 lines
    let h2 := lines.foldl seatStep h1
    let h3 := lines.foldl postsStep h2
    let h4 := lines.foldl dealtStep h3
    some (streetScan h4 lines)

/-- `PokerdomParser.parse`: segment, then extract every non-blank chunk. -/
def parse (t : String) : List Hand := (segment t).filterMap parseOne

/-!  ## The renderer (`PokerStarsWriter`) -/

/-- Membership in `CURRENCY_SIGNS`. -/
def curOK (s : String) : Bool := (s == "$") || (s == "€") || (s == "£") || (s == "¥")

/-- `CURRENCY_SIGNS.get(currency, "$")` (the dict maps each sign to itself). -/
def curOf (h : Hand) : String := if curOK h.currency then h.currency else "$"

/-- The stakes fragment: empty when the big blind is falsy (zero). -/
def stakesStr (h : Hand) : String :=
  if h.stakes.2 ≠ 0 then
    "(" ++ curOf h ++ fmt2 h.stakes.1 ++ "/" ++ curOf h ++ fmt2 h.stakes.2 ++ ")"
  else ""

/-- The formatted timestamp, or empty when absent. -/
def dtStr (h : Hand) : String :=
  match h.date_utc with
  | some d => strftimeET d
  | none => ""

/-- Hand id, or the placeholder when falsy (absent or empty). -/
def hidOr (h : Hand) : String :=
  match h.hand_id with
  | some s => if s = "" then "0000000000" else s
  | none => "0000000000"

/-- The header line (note the final `strip()`). -/
def headerLine (h : Hand) : String :=
  pyStrip ("PokerStars Hand #" ++ hidOr h ++ ": " ++ h.game ++ " " ++ stakesStr h ++ " - " ++ dtStr h)

/-- Table name, or the placeholder when falsy. -/
def tableOr (h : Hand) : String :=
  match h.table_name with
  | some s => if s = "" then "Pokerdom Table" else s
  | none => "Pokerdom Table"

/-- The `N-max` fragment, empty when falsy (absent or zero). -/
def maxpStr (h : Hand) : String :=
  match h.max_players with
  | some m => if m = 0 then "" else toString m ++ "-max"
  | none => ""

/-- The button fragment, `Seat #1` when falsy (absent or zero). -/
def btnStr (h : Hand) : String :=
  match h.button_seat with
  | some b => if b = 0 then "Seat #1" else "Seat #" ++ toString b
  | none => "Seat #1"

/-- The table line. -/
def tableLine (h : Hand) : String :=
  "Table " ++ strOf [aposC] ++ tableOr h ++ strOf [aposC] ++ " " ++ maxpStr h ++ " " ++ btnStr h

/-- Stable insertion into a seat list sorted by seat number (equal numbers
keep their relative order, as with the stable Python `sorted`). -/
def insSeat (s : Seat) : List Seat → List Seat
  | [] => [s]
  | t :: r => if t.num ≤ s.num then t :: insSeat s r else s :: t :: r

/-- `sorted(hand.seats, key=lambda x: x.num)`. -/
def sortSeats (l : List Seat) : List Seat := l.foldl (fun acc s => insSeat s acc) []

/-- One seat line (empty stack text when the stack is unparsed). -/
def seatLine (cur : String) (s : Seat) : String :=
  "Seat " ++ toString s.num ++ ": " ++ s.name ++ " (" ++
    (match s.stack with
     | some st => cur ++ fmt2 st
     | none => "") ++ " in chips)"

/-- All seat lines, in ascending seat-number order. -/
def seatLines (h : Hand) : List String := (sortSeats h.seats).map (seatLine (curOf h))

/-- The blind lines, SB then BB, when present. -/
def blindLines (h : Hand) : List String :=
  (match h.blinds.sb with
   | some p => [p.1 ++ ": posts small blind " ++ curOf h ++ fmt2 p.2]
   | none => []) ++
  (match h.blinds.bb with
   | some p => [p.1 ++ ": posts big blind " ++ curOf h ++ fmt2 p.2]
   | none => [])

/-- The hole-cards marker and the hero line when hero and cards are truthy. -/
def holeLines (h : Hand) : List String :=
  holeMarker ::
    (match h.hero, h.hero_hole with
     | some n, some c => if n ≠ "" ∧ c ≠ "" then ["Dealt to " ++ n ++ " [" ++ c ++ "]"] else []
     | _, _ => [])

/-- `_format_action`: `none` models the `None` returned for collected
actions (deferred to the summary); unknown verbs fall back to a commented
raw line. -/
def formatAction (a : Action) (cur : String) : Option String :=
  if a.verb = "folds" ∨ a.verb = "checks" then some (a.actor ++ ": " ++ a.verb)
  else if a.verb = "calls" ∨ a.verb = "bets" then
    match a.amount with
    | some q => some (a.actor ++ ": " ++ a.verb ++ " " ++ cur ++ fmt2 q)
    | none => some (a.actor ++ ": " ++ a.verb)
  else if a.verb = "raises" then
    match a.amount with
    | some q => some (a.actor ++ ": raises to " ++ cur ++ fmt2 q)
    | none => some (a.actor ++ ": raises")
  else if a.verb = "collected" then none
  else some ("# " ++ a.raw)

/-- `dump_street`: nothing for a non-preflop street without actions; a street
label line (with the board when known) for non-preflop streets; then the
formatted actions, skipping falsy lines. -/
def streetSection (h : Hand) (tag label : String) : List String :=
  let acts := h.actions.filter (fun a => a.street == tag)
  if acts.isEmpty ∧ tag ≠ "PREFLOP" then []
  else
    (if tag = "PREFLOP" then []
     else
       let board := dictGet h.board tag
       [if board = "" then "*** " ++ label ++ " ***" else "*** " ++ label ++ " " ++ board ++ " ***"]) ++
    acts.filterMap (fun a =>
      match formatAction a (curOf h) with
      | some l => if l = "" then none else some l
      | none => none)

/-- The showdown section: emitted when any action is tagged SHOWDOWN; lists
the showed actions that carry cards. -/
def showdownSection (h : Hand) : List String :=
  let sd := h.actions.filter (fun a => a.street == "SHOWDOWN")
  if sd.isEmpty then []
  else
    "*** SHOW DOWN ***" ::
      sd.filterMap (fun a =>
        if a.verb == "showed" then
          match a.cards with
          | some c => if c ≠ "" then some (a.actor ++ ": shows [" ++ c ++ "]") else none
          | none => none
        else none)

/-- The summary section: emitted when any action has the collected verb.
Formatting `None` with `:.2f` raises in Python; that failure is the `none`
result here. -/
def summarySection (h : Hand) : Option (List String) :=
  let coll := h.actions.filter (fun a => a.verb == "collected")
  let fmtColl : Action → Option String := fun a =>
    a.amount.map (fun q => a.actor ++ " collected " ++ curOf h ++ fmt2 q)
  if coll.isEmpty then some []
  else (coll.mapM fmtColl).map (fun ls => "*** SUMMARY ***" :: ls)

/-- All output lines of `write`, in the append order of the source; `none`
when the summary loop would raise. -/
def writeLines (h : Hand) : Option (List String) :=
  (summarySection h).map (fun sm =>
    [headerLine h, tableLine h] ++ seatLines h ++ blindLines h ++ holeLines h ++
      streetSection h "PREFLOP" "HOLE CARDS" ++ streetSection h "FLOP" "FLOP" ++
      streetSection h "TURN" "TURN" ++ streetSection h "RIVER" "RIVER" ++
      showdownSection h ++ sm)

/-- `PokerStarsWriter.write`: the joined lines with a trailing line break. -/
def write (h : Hand) : Option String :=
  (writeLines h).map (fun ls => String.intercalate "\n" ls ++ "\n")

/-!  ## Generic helper lemmas -/

/-- A property preserved by every step of a fold is preserved by the fold. -/
theorem foldl_preserve {α β : Type} (f : β → α → β) (P : β → Prop)
    (hstep : ∀ b a, P b → P (f b a)) : ∀ (l : List α) (b : β), P b → P (l.foldl f b) := by
  intro l
  induction l with
  | nil => intro b hb; simpa using hb
  | cons a t ih => intro b hb; simpa using ih (f b a) (hstep b a hb)

/-!  ## Field-preservation lemmas for the extraction phases -/

theorem tableStep_game (h : Hand) (ln : String) : (tableStep h ln).game = h.game := by
  unfold tableStep
  dsimp only
  repeat' split
  all_goals rfl

theorem seatStep_game (h : Hand) (ln : String) : (seatStep h ln).game = h.game := by
  unfold seatStep
  repeat' split
  all_goals rfl

theorem postsStep_game (h : Hand) (ln : String) : (postsStep h ln).game = h.game := by
  unfold postsStep
  dsimp only
  repeat' split
  all_goals rfl

theorem dealtStep_game (h : Hand) (ln : String) : (dealtStep h ln).game = h.game := by
  unfold dealtStep
  repeat' split
  all_goals rfl

theorem scanStep_game (st : String) (h : Hand) (ln : String) :
    (scanStep st h ln).2.game = h.game := by
  unfold scanStep
  dsimp only
  repeat' split
  all_goals rfl

theorem headerApply_game (h : Hand) (ln : String) (hg : h.game = holdemNL) :
    (headerApply h ln).game = holdemNL := by
  unfold headerApply
  dsimp only
  repeat' split
  all_goals simp [hg]

theorem streetScan_game (h : Hand) (lines : List String) :
    (streetScan h lines).game = h.game := by
  unfold streetScan
  exact foldl_preserve (fun (p : String × Hand) ln => scanStep p.1 p.2 ln)
    (fun p => p.2.game = h.game)
    (fun p ln hp => by
      show (scanStep p.1 p.2 ln).2.game = h.game
      rw [scanStep_game]; exact hp) lines ("PREFLOP", h) rfl

/-- C10 core: every extracted record carries the constant game label. -/
theorem parseOne_game (t : String) (h : Hand) (hp : parseOne t = some h) :
    h.game = holdemNL := by
  unfold parseOne at hp
  cases hl : cleanLines t with
  | nil => rw [hl] at hp; exact absurd hp (by simp)
  | cons l0 rest =>
    rw [hl] at hp
    dsimp only at hp
    have hh := Option.some.inj hp
    rw [← hh, streetScan_game]
    have h4 := foldl_preserve dealtStep (fun b => b.game = holdemNL)
      (fun b a hb => by show (dealtStep b a).game = holdemNL; rw [dealtStep_game]; exact hb)
    have h3 := foldl_preserve postsStep (fun b => b.game = holdemNL)
      (fun b a hb => by show (postsStep b a).game = holdemNL; rw [postsStep_game]; exact hb)
    have h2 := foldl_preserve seatStep (fun b => b.game = holdemNL)
      (fun b a hb => by show (seatStep b a).game = holdemNL; rw [seatStep_game]; exact hb)
    have h1 : (tableScan (headerApply defaultHand l0) (l0 :: rest)).game = holdemNL := by
      unfold tableScan
      exact foldl_preserve tableStep (fun b => b.game = holdemNL)
        (fun b a hb => by show (tableStep b a).game = holdemNL; rw [tableStep_game]; exact hb)
        ((l0 :: rest).take 8) (headerApply defaultHand l0) (headerApply_game defaultHand l0 rfl)
    exact h4 _ _ (h3 _ _ (h2 _ _ h1))

theorem tableStep_hero (h : Hand) (ln : String) :
    (tableStep h ln).hero = h.hero ∧ (tableStep h ln).hero_hole = h.hero_hole := by
  unfold tableStep
  dsimp only
  repeat' split
  all_goals exact ⟨rfl, rfl⟩

theorem seatStep_hero (h : Hand) (ln : String) :
    (seatStep h ln).hero = h.hero ∧ (seatStep h ln).hero_hole = h.hero_hole := by
  unfold seatStep
  repeat' split
  all_goals exact ⟨rfl, rfl⟩

theorem postsStep_hero (h : Hand) (ln : String) :
    (postsStep h ln).hero = h.hero ∧ (postsStep h ln).hero_hole = h.hero_hole := by
  unfold postsStep
  dsimp only
  repeat' split
  all_goals exact ⟨rfl, rfl⟩

theorem scanStep_hero (st : String) (h : Hand) (ln : String) :
    (scanStep st h ln).2.hero = h.hero ∧ (scanStep st h ln).2.hero_hole = h.hero_hole := by
  unfold scanStep
  dsimp only
  repeat' split
  all_goals exact ⟨rfl, rfl⟩

theorem headerApply_hero (h : Hand) (ln : String) :
    (headerApply h ln).hero = h.hero ∧ (headerApply h ln).hero_hole = h.hero_hole := by
  unfold headerApply
  dsimp only
  repeat' split
  all_goals exact ⟨rfl, rfl⟩

theorem streetScan_hero (h : Hand) (lines : List String) :
    (streetScan h lines).hero = h.hero ∧ (streetScan h lines).hero_hole = h.hero_hole := by
  unfold streetScan
  exact foldl_preserve (fun (p : String × Hand) ln => scanStep p.1 p.2 ln)
    (fun p => p.2.hero = h.hero ∧ p.2.hero_hole = h.hero_hole)
    (fun p ln hp => by
      show (scanStep p.1 p.2 ln).2.hero = h.hero ∧ (scanStep p.1 p.2 ln).2.hero_hole = h.hero_hole
      rw [(scanStep_hero p.1 p.2 ln).1, (scanStep_hero p.1 p.2 ln).2]
      exact hp) lines ("PREFLOP", h) ⟨rfl, rfl⟩

/-- The hero scan: the last matching line wins (each match overwrites). -/
theorem dealtScan_hero : ∀ (ls : List String) (h : Hand),
    ((ls.foldl dealtStep h).hero, (ls.foldl dealtStep h).hero_hole) =
      (match (ls.filterMap matchDealt).getLast? with
       | some c => (some (normalizeName c.name), some (pyStrip c.cards))
       | none => (h.hero, h.hero_hole)) := by
  intro ls
  induction ls with
  | nil => intro h; simp
  | cons ln rest ih =>
    intro h
    cases hm : matchDealt ln with
    | none =>
      have hstep : dealtStep h ln = h := by unfold dealtStep; rw [hm]
      simp only [List.foldl_cons, hstep, List.filterMap_cons, hm]
      exact ih h
    | some c =>
      have hstep : dealtStep h ln =
          { h with hero := some (normalizeName c.name), hero_hole := some (pyStrip c.cards) } := by
        unfold dealtStep; rw [hm]
      simp only [List.foldl_cons, hstep, List.filterMap_cons, hm]
      cases hg : (rest.filterMap matchDealt).getLast? with
      | none =>
        have hnil : rest.filterMap matchDealt = [] := by
          cases hr : rest.filterMap matchDealt with
          | nil => rfl
          | cons a t => rw [hr] at hg; simp [List.getLast?_cons] at hg
        have hih := ih { h with hero := some (normalizeName c.name),
                                hero_hole := some (pyStrip c.cards) }
        rw [hnil] at hih
        rw [hnil]
        simpa using hih
      | some d =>
        have hcons : (c :: rest.filterMap matchDealt).getLast? = some d := by
          rw [List.getLast?_cons, hg]; rfl
        rw [hcons]
        have := ih { h with hero := some (normalizeName c.name),
                            hero_hole := some (pyStrip c.cards) }
        rw [hg] at this
        exact this

/-- C3 core: the extracted hero fields come from the last dealt-to match. -/
theorem parseOne_hero (t : String) (h : Hand) (hp : parseOne t = some h) :
    (h.hero, h.hero_hole) =
      (match ((cleanLines t).filterMap matchDealt).getLast? with
       | some c => (some (normalizeName c.name), some (pyStrip c.cards))
       | none => (none, none)) := by
  unfold parseOne at hp
  cases hl : cleanLines t with
  | nil => rw [hl] at hp; exact absurd hp (by simp)
  | cons l0 rest =>
    rw [hl] at hp
    dsimp only at hp
    have hh := Option.some.inj hp
    rw [← hh, (streetScan_hero _ _).1, (streetScan_hero _ _).2]
    rw [dealtScan_hero (l0 :: rest)]
    set h3 := (l0 :: rest).foldl postsStep
      ((l0 :: rest).foldl seatStep (tableScan (headerApply defaultHand l0) (l0 :: rest)))
      with hdef3
    have hpres : h3.hero = none ∧ h3.hero_hole = none := by
      have p4 := foldl_preserve postsStep (fun b => b.hero = none ∧ b.hero_hole = none)
        (fun b a hb => by
          show (postsStep b a).hero = none ∧ (postsStep b a).hero_hole = none
          rw [(postsStep_hero b a).1, (postsStep_hero b a).2]; exact hb)
      have p3 := foldl_preserve seatStep (fun b => b.hero = none ∧ b.hero_hole = none)
        (fun b a hb => by
          show (seatStep b a).hero = none ∧ (seatStep b a).hero_hole = none
          rw [(seatStep_hero b a).1, (seatStep_hero b a).2]; exact hb)
      have p1 : (tableScan (headerApply defaultHand l0) (l0 :: rest)).hero = none ∧
          (tableScan (headerApply defaultHand l0) (l0 :: rest)).hero_hole = none := by
        unfold tableScan
        exact foldl_preserve tableStep (fun b => b.hero = none ∧ b.hero_hole = none)
          (fun b a hb => by
            show (tableStep b a).hero = none ∧ (tableStep b a).hero_hole = none
            rw [(tableStep_hero b a).1, (tableStep_hero b a).2]; exact hb)
          ((l0 :: rest).take 8) (headerApply defaultHand l0)
          (by show (headerApply defaultHand l0).hero = none ∧
                (headerApply defaultHand l0).hero_hole = none
              rw [(headerApply_hero defaultHand l0).1, (headerApply_hero defaultHand l0).2]
              exact ⟨rfl, rfl⟩)
      exact p4 _ _ (p3 _ _ p1)
    cases hg : ((l0 :: rest).filterMap matchDealt).getLast? with
    | none => simp only [hpres.1, hpres.2]
    | some c => rfl

/-!  ## Board-origin lemmas (for the §3 board invariant) -/

theorem tableStep_board (h : Hand) (ln : String) : (tableStep h ln).board = h.board := by
  unfold tableStep
  dsimp only
  repeat' split
  all_goals rfl

theorem seatStep_board (h : Hand) (ln : String) : (seatStep h ln).board = h.board := by
  unfold seatStep
  repeat' split
  all_goals rfl

theorem postsStep_board (h : Hand) (ln : String) : (postsStep h ln).board = h.board := by
  unfold postsStep
  dsimp only
  repeat' split
  all_goals rfl

theorem dealtStep_board (h : Hand) (ln : String) : (dealtStep h ln).board = h.board := by
  unfold dealtStep
  repeat' split
  all_goals rfl

theorem headerApply_board (h : Hand) (ln : String) : (headerApply h ln).board = h.board := by
  unfold headerApply
  dsimp only
  repeat' split
  all_goals rfl

/-- Membership after a Python-dict insertion: the new pair or an old one. -/
theorem dictInsert_mem (kv : String × String) (k v : String) (d : List (String × String))
    (hm : kv ∈ dictInsert k v d) : kv = (k, v) ∨ kv ∈ d := by
  unfold dictInsert at hm
  split at hm
  · obtain ⟨p, hp, he⟩ := List.mem_map.mp hm
    by_cases hk : p.1 == k
    · left; rw [← he]; simp [hk]
    · right
      have : (if p.1 == k then (k, v) else p) = p := by simp [hk]
      rw [this] at he
      rw [← he]; exact hp
  · rcases List.mem_append.mp hm with hin | hnew
    · right; exact hin
    · left; simpa using hnew

/-- The street tag entered by a marker line is always one of the six tags. -/
theorem streetOf_mem (s : String) :
    streetOf s ∈ ["PREFLOP", "FLOP", "TURN", "RIVER", "SHOWDOWN", "SUMMARY"] := by
  unfold streetOf
  dsimp only
  split_ifs <;> simp

/-- A board entry that one scanned line can contribute. -/
def boardFromLine (ln : String) (kv : String × String) : Prop :=
  ∃ caps, matchStreet ln = some caps ∧ ∃ b, caps.board = some b ∧ b ≠ "" ∧
    kv.1 = streetOf caps.street ∧ kv.2 = "[" ++ pyStrip b ++ "]"

/-- One scan step only adds board entries that come from its own line. -/
theorem scanStep_board (st : String) (h : Hand) (ln : String) (kv : String × String)
    (hm : kv ∈ (scanStep st h ln).2.board) : kv ∈ h.board ∨ boardFromLine ln kv := by
  unfold scanStep at hm
  cases hs : matchStreet ln with
  | some caps =>
    rw [hs] at hm
    dsimp only at hm
    cases hb : caps.board with
    | some b =>
      rw [hb] at hm
      dsimp only at hm
      by_cases hbe : b = ""
      · rw [if_neg (by simp [hbe])] at hm
        exact Or.inl hm
      · rw [if_pos hbe] at hm
        rcases dictInsert_mem kv _ _ _ hm with hnew | hold
        · right
          exact ⟨caps, hs, b, hb, hbe, by rw [hnew], by rw [hnew]⟩
        · exact Or.inl hold
    | none =>
      rw [hb] at hm
      exact Or.inl hm
  | none =>
    rw [hs] at hm
    dsimp only at hm
    cases hA : matchAction ln with
    | some caps => rw [hA] at hm; exact Or.inl hm
    | none =>
      rw [hA] at hm
      dsimp only at hm
      cases hC : matchCollected ln with
      | some caps => rw [hC] at hm; exact Or.inl hm
      | none =>
        rw [hC] at hm
        dsimp only at hm
        cases hS : matchShow ln with
        | some caps => rw [hS] at hm; exact Or.inl hm
        | none => rw [hS] at hm; exact Or.inl hm

/-- The street scan only accumulates board entries witnessed by its lines. -/
theorem streetFold_board : ∀ (ls : List String) (st : String) (h : Hand) (kv : String × String),
    kv ∈ ((ls.foldl (fun p ln => scanStep p.1 p.2 ln) (st, h)).2).board →
    kv ∈ h.board ∨ ∃ ln ∈ ls, boardFromLine ln kv := by
  intro ls
  induction ls with
  | nil => intro st h kv hm; exact Or.inl hm
  | cons ln rest ih =>
    intro st h kv hm
    rw [List.foldl_cons] at hm
    rcases ih (scanStep st h ln).1 (scanStep st h ln).2 kv hm with hstep | ⟨ln2, hln2, hsrc⟩
    · rcases scanStep_board st h ln kv hstep with hold | hsrc
      · exact Or.inl hold
      · exact Or.inr ⟨ln, List.mem_cons_self ln rest, hsrc⟩
    · exact Or.inr ⟨ln2, List.mem_cons_of_mem ln hln2, hsrc⟩

/-- C5 core: every board entry of an extracted record names one of the six
street tags and comes from a street-marker line of the chunk that carried a
(non-empty) board for the street it entered. -/
theorem parseOne_board (t : String) (h : Hand) (hp : parseOne t = some h) :
    ∀ kv ∈ h.board, kv.1 ∈ ["PREFLOP", "FLOP", "TURN", "RIVER", "SHOWDOWN", "SUMMARY"] ∧
      ∃ ln ∈ cleanLines t, boardFromLine ln kv := by
  unfold parseOne at hp
  cases hl : cleanLines t with
  | nil => rw [hl] at hp; exact absurd hp (by simp)
  | cons l0 rest =>
    rw [hl] at hp
    dsimp only at hp
    have hh := Option.some.inj hp
    intro kv hm
    have hempty : ((l0 :: rest).foldl dealtStep
        ((l0 :: rest).foldl postsStep
          ((l0 :: rest).foldl seatStep
            (tableScan (headerApply defaultHand l0) (l0 :: rest))))).board = [] := by
      have p5 := foldl_preserve dealtStep (fun b => b.board = [])
        (fun b a hb => by show (dealtStep b a).board = []; rw [dealtStep_board]; exact hb)
      have p4 := foldl_preserve postsStep (fun b => b.board = [])
        (fun b a hb => by show (postsStep b a).board = []; rw [postsStep_board]; exact hb)
      have p3 := foldl_preserve seatStep (fun b => b.board = [])
        (fun b a hb => by show (seatStep b a).board = []; rw [seatStep_board]; exact hb)
      have p1 : (tableScan (headerApply defaultHand l0) (l0 :: rest)).board = [] := by
        unfold tableScan
        exact foldl_preserve tableStep (fun b => b.board = [])
          (fun b a hb => by show (tableStep b a).board = []; rw [tableStep_board]; exact hb)
          ((l0 :: rest).take 8) (headerApply defaultHand l0)
          (by show (headerApply defaultHand l0).board = []
              rw [headerApply_board]; rfl)
      exact p5 _ _ (p4 _ _ (p3 _ _ p1))
    rw [← hh] at hm
    unfold streetScan at hm
    rcases streetFold_board (l0 :: rest) "PREFLOP" _ kv hm with hold | ⟨ln, hln, hsrc⟩
    · rw [hempty] at hold
      exact absurd hold (by simp)
    · refine ⟨?_, ln, hln, hsrc⟩
      obtain ⟨caps, _, b, _, _, hk, _⟩ := hsrc
      rw [hk]
      exact streetOf_mem caps.street

/-!  ## Formatting lemmas -/

/-- `pad2` of a two-digit range value has length 2. -/
theorem pad2_len : ∀ n : Nat, n < 100 → (pad2 n).length = 2 := by decide

/-- `fmt2` always renders with exactly two digits after the decimal point. -/
theorem fmt2_decimals (q : ℚ) : ∃ w f, fmt2 q = w ++ "." ++ f ∧ f.length = 2 := by
  unfold fmt2
  dsimp only
  set n : ℤ := rhe (100 * q.num) q.den with hn
  have hlt : n.natAbs % 100 < 100 := Nat.mod_lt _ (by norm_num)
  by_cases hneg : n < 0
  · rw [if_pos hneg]
    refine ⟨"-" ++ toString (n.natAbs / 100), pad2 (n.natAbs % 100), ?_, pad2_len _ hlt⟩
    simp [String.append_assoc]
  · rw [if_neg hneg]
    exact ⟨toString (n.natAbs / 100), pad2 (n.natAbs % 100), rfl, pad2_len _ hlt⟩

/-- Rendering of a raise action with a present amount. -/
theorem formatAction_raises (street actor : String) (q : ℚ) (cur : String)
    (to_amt : Option ℚ) (cards : Option String) (raw : String) :
    formatAction { street := street, actor := actor, verb := "raises", amount := some q,
                   to_amount := to_amt, cards := cards, raw := raw } cur =
      some (actor ++ ": raises to " ++ cur ++ fmt2 q) := by
  unfold formatAction
  dsimp only
  rw [if_neg (show ¬(("raises" : String) = "folds" ∨ ("raises" : String) = "checks") by decide),
    if_neg (show ¬(("raises" : String) = "calls" ∨ ("raises" : String) = "bets") by decide),
    if_pos rfl]

/-!  ## The claims -/

/-- C10: for every non-empty chunk, the extracted game label is the constant
Holdem No Limit string, regardless of the game text in the source header:
the alternate-header game capture is discarded and the constant is kept or
re-assigned. -/
theorem C10_theorem (t : String) (h : Hand) (hp : parseOne t = some h) :
    h.game = holdemNL :=
  parseOne_game t h hp

theorem C10_witness : defaultHand.game = holdemNL :=
  C10_theorem "x" defaultHand (by decide)

/-- C2: in the street/action scan, a line recognised as a collected-amount
event (the street and action patterns do not match, the collected pattern
does) is appended tagged SUMMARY, and a line recognised as a show event is
appended tagged SHOWDOWN — both regardless of the current street state. -/
theorem C2_theorem (st : String) (h : Hand) (ln : String) :
    (matchStreet ln = none → matchAction ln = none →
      ∀ caps, matchCollected ln = some caps →
        (scanStep st h ln).2.actions = h.actions ++
          [{ street := "SUMMARY", actor := normalizeName caps.name, verb := "collected",
             amount := some (safeFloat caps.amt), raw := ln }]) ∧
    (matchStreet ln = none → matchAction ln = none → matchCollected ln = none →
      ∀ caps, matchShow ln = some caps →
        (scanStep st h ln).2.actions = h.actions ++
          [{ street := "SHOWDOWN", actor := normalizeName caps.name, verb := "showed",
             cards := some caps.cards, raw := ln }]) := by
  constructor
  · intro hS hA caps hC
    unfold scanStep
    rw [hS, hA, hC]
  · intro hS hA hC caps hSh
    unfold scanStep
    rw [hS, hA, hC, hSh]

theorem C2_witness :
    (scanStep "FLOP" defaultHand "Bob collected 7").2.actions = defaultHand.actions ++
      [{ street := "SUMMARY", actor := "Bob", verb := "collected",
         amount := some (safeFloat "7"), raw := "Bob collected 7" }] ∧
    (scanStep "RIVER" defaultHand "Ann showed [Ah Kh]").2.actions = defaultHand.actions ++
      [{ street := "SHOWDOWN", actor := "Ann", verb := "showed",
         cards := some "Ah Kh", raw := "Ann showed [Ah Kh]" }] := by
  constructor
  · have h0 := C2_theorem "FLOP" defaultHand "Bob collected 7"
    have h1 := h0.1 (by decide) (by decide) { name := "Bob", cur := "", amt := "7" } (by decide)
    exact h1.trans (by decide)
  · have h0 := C2_theorem "RIVER" defaultHand "Ann showed [Ah Kh]"
    have h2 := h0.2 (by decide) (by decide) (by decide) { name := "Ann", cards := "Ah Kh" }
      (by decide)
    exact h2.trans (by decide)

/-- C6: a raise line with a stated amount, in either phrasing variant,
produces an action that renders as actor, the literal "raises to", the
currency glyph, and the stated target amount formatted to exactly two
decimal places; in particular both variants at 12.5 render "raises to"
followed by 12.50. -/
theorem C6_theorem :
    (∀ (st : String) (h : Hand) (ln curSym : String) (caps : ActionCaps) (a : String),
      matchStreet ln = none → matchAction ln = some caps →
      caps.amt = some a → a ≠ "" →
      (toLowerStr caps.verb = "raises" ∨ toLowerStr caps.verb = "raises to") →
      ∃ act : Action,
        (scanStep st h ln).2.actions = h.actions ++ [act] ∧
        act.verb = "raises" ∧ act.amount = some (safeFloat a) ∧
        formatAction act curSym =
          some (normalizeName caps.name ++ ": raises to " ++ curSym ++ fmt2 (safeFloat a)) ∧
        ∃ w f, fmt2 (safeFloat a) = w ++ "." ++ f ∧ f.length = 2) ∧
    ((scanStep "PREFLOP" defaultHand "Alice: raises to 12.5").2.actions.map
        (fun act => formatAction act "$") = [some "Alice: raises to $12.50"] ∧
      (scanStep "PREFLOP" defaultHand "Alice: raises 12.5").2.actions.map
        (fun act => formatAction act "$") = [some "Alice: raises to $12.50"]) := by
  constructor
  · intro st h ln curSym caps a hS hA hamt hane hverb
    unfold scanStep
    rw [hS, hA]
    dsimp only
    have hverb2 : (if containsSub (toLowerStr caps.verb) "raises to" = true
        then "raises" else toLowerStr caps.verb) = "raises" := by
      rcases hverb with hv | hv
      · rw [hv]; decide
      · rw [hv]; decide
    have hamt2 : (match caps.amt with
        | some x => if x = "" then none else some (safeFloat x)
        | none => (none : Option ℚ)) = some (safeFloat a) := by
      rw [hamt]
      exact if_neg hane
    refine ⟨{ street := st, actor := normalizeName caps.name, verb := "raises",
              amount := some (safeFloat a), to_amount := none, cards := none,
              raw := ln }, ?_, rfl, rfl, ?_, fmt2_decimals (safeFloat a)⟩
    · dsimp only
      rw [hverb2, hamt2]
    · exact formatAction_raises st (normalizeName caps.name) (safeFloat a) curSym none none ln
  · constructor <;> decide

theorem C6_witness :
    ∃ act : Action,
      (scanStep "TURN" defaultHand "Bob: raises to 3.5").2.actions =
        defaultHand.actions ++ [act] ∧
      act.verb = "raises" ∧ act.amount = some (safeFloat "3.5") ∧
      formatAction act "€" =
        some (normalizeName "Bob" ++ ": raises to " ++ "€" ++ fmt2 (safeFloat "3.5")) ∧
      ∃ w f, fmt2 (safeFloat "3.5") = w ++ "." ++ f ∧ f.length = 2 :=
  C6_theorem.1 "TURN" defaultHand "Bob: raises to 3.5" "€"
    { name := "Bob", verb := "raises to", cur := "", amt := some "3.5" } "3.5"
    (by decide) (by decide) rfl (by decide) (Or.inr rfl)

/-!  ## Segmentation lemmas (C4) -/

/-- A well-formed hand block: no blank lines, and it contains the hole-cards
marker on some line. -/
def wfBlock (b : List String) : Prop :=
  (∀ ln ∈ b, pyStrip ln ≠ "") ∧ ∃ ln ∈ b, containsSub ln holeMarker = true

instance (b : List String) : Decidable (wfBlock b) := by
  unfold wfBlock
  infer_instance

/-- Unfolding equation of `segLoop` on the empty line list. -/
theorem segLoop_nil (chunks buf : List String) :
    segLoop chunks buf [] = if buf.isEmpty then chunks else chunks ++ [chunkOf buf] := rfl

/-- Unfolding equation of `segLoop` on a line. -/
theorem segLoop_cons (chunks buf : List String) (ln : String) (rest : List String) :
    segLoop chunks buf (ln :: rest) =
      if pyStrip ln = "" ∧ buf ≠ [] ∧ (buf.any fun b => containsSub b holeMarker) = true then
        segLoop (chunks ++ [chunkOf buf]) [] rest
      else segLoop chunks (buf ++ [ln]) rest := rfl

/-- Non-blank lines are buffered without closing a chunk. -/
theorem segLoop_skip (b : List String) (hb : ∀ ln ∈ b, pyStrip ln ≠ "") :
    ∀ (chunks buf rest : List String),
      segLoop chunks buf (b ++ rest) = segLoop chunks (buf ++ b) rest := by
  induction b with
  | nil => intro chunks buf rest; simp
  | cons ln b2 ih =>
    intro chunks buf rest
    rw [List.cons_append, segLoop_cons]
    rw [if_neg (by
      intro hcontra
      exact hb ln (List.mem_cons_self ln b2) hcontra.1)]
    rw [ih (fun l hl => hb l (List.mem_cons_of_mem ln hl)) chunks (buf ++ [ln]) rest]
    rw [List.append_assoc, List.singleton_append]

/-- A well-formed block followed by a blank line is emitted as one chunk. -/
theorem segLoop_block (b : List String) (hwf : wfBlock b) (chunks rest : List String) :
    segLoop chunks [] (b ++ "" :: rest) = segLoop (chunks ++ [chunkOf b]) [] rest := by
  rw [segLoop_skip b hwf.1 chunks [] ("" :: rest), List.nil_append, segLoop_cons]
  have hne : b ≠ [] := by
    obtain ⟨ln, hln, _⟩ := hwf.2
    intro hb
    rw [hb] at hln
    exact absurd hln (by simp)
  have hany : (b.any fun bb => containsSub bb holeMarker) = true := by
    obtain ⟨ln, hln, hc⟩ := hwf.2
    exact List.any_eq_true.mpr ⟨ln, hln, hc⟩
  rw [if_pos ⟨by decide, hne, hany⟩]

/-- Terminated well-formed blocks are emitted one chunk each, in order. -/
theorem segLoop_term (blocks : List (List String)) (hwf : ∀ b ∈ blocks, wfBlock b) :
    ∀ (chunks rest : List String),
      segLoop chunks [] ((blocks.flatMap (fun b => b ++ [""])) ++ rest) =
        segLoop (chunks ++ blocks.map chunkOf) [] rest := by
  induction blocks with
  | nil => intro chunks rest; simp
  | cons b bs ih =>
    intro chunks rest
    rw [List.flatMap_cons, List.append_assoc]
    have hshape : (b ++ [""]) ++ ((bs.flatMap (fun b2 => b2 ++ [""])) ++ rest) =
        b ++ "" :: ((bs.flatMap (fun b2 => b2 ++ [""])) ++ rest) := by
      rw [List.append_assoc, List.singleton_append]
    rw [hshape]
    rw [segLoop_block b (hwf b (List.mem_cons_self b bs)) chunks _]
    rw [ih (fun b2 hb2 => hwf b2 (List.mem_cons_of_mem b hb2)) (chunks ++ [chunkOf b]) rest]
    rw [List.map_cons, List.append_assoc, List.singleton_append]

/-- C4: the segmenter yields zero chunks for empty input; N well-formed
blank-terminated blocks yield exactly their N chunks in source order; and a
trailing unterminated block is still emitted as the final chunk. -/
theorem C4_theorem :
    segment "" = [] ∧
    (∀ blocks : List (List String), (∀ b ∈ blocks, wfBlock b) →
      segLines (blocks.flatMap (fun b => b ++ [""])) = blocks.map chunkOf) ∧
    (∀ (blocks : List (List String)) (lastb : List String),
      (∀ b ∈ blocks ++ [lastb], wfBlock b) →
      segLines ((blocks.flatMap (fun b => b ++ [""])) ++ lastb) =
        (blocks ++ [lastb]).map chunkOf) := by
  refine ⟨rfl, ?_, ?_⟩
  · intro blocks hwf
    unfold segLines
    have hterm := segLoop_term blocks hwf [] []
    rw [List.append_nil] at hterm
    rw [hterm, segLoop_nil]
    simp
  · intro blocks lastb hwf
    unfold segLines
    rw [segLoop_term blocks (fun b hb => hwf b (List.mem_append_left _ hb)) [] lastb]
    have hlast := hwf lastb (List.mem_append_right _ (by simp))
    rw [List.nil_append]
    have hskip := segLoop_skip lastb hlast.1 (blocks.map chunkOf) [] []
    rw [List.append_nil, List.nil_append] at hskip
    rw [hskip, segLoop_nil]
    have hne : lastb.isEmpty = false := by
      obtain ⟨ln, hln, _⟩ := hlast.2
      cases hl : lastb with
      | nil => rw [hl] at hln; exact absurd hln (by simp)
      | cons a t => rfl
    rw [hne]
    simp

theorem C4_witness :
    segLines ["line a", holeMarker, "", holeMarker, "line b"] =
      [chunkOf ["line a", holeMarker], chunkOf [holeMarker, "line b"]] := by
  have h := C4_theorem.2.2 [["line a", holeMarker]] [holeMarker, "line b"] (by decide)
  exact h.trans (by decide)

/-!  ## Showdown-section lemmas (C7) -/

/-- The exact line list behind a successful `write`. -/
theorem writeLines_eq (h : Hand) (sm : List String) (hs : summarySection h = some sm) :
    writeLines h = some ([headerLine h, tableLine h] ++ seatLines h ++ blindLines h ++
      holeLines h ++ streetSection h "PREFLOP" "HOLE CARDS" ++ streetSection h "FLOP" "FLOP" ++
      streetSection h "TURN" "TURN" ++ streetSection h "RIVER" "RIVER" ++
      showdownSection h ++ sm) := by
  unfold writeLines
  rw [hs]
  rfl

/-- C7 (amended): the showdown section header appears in the rendered lines
exactly when some action is tagged with street SHOWDOWN (not when some
action has the showed verb); when emitted, the section lists actor and cards
of every SHOWDOWN-street action whose verb is showed and which carries
cards. -/
theorem C7_theorem (h : Hand) (L : List String) (hw : writeLines h = some L) :
    ((∃ a ∈ h.actions, a.street = "SHOWDOWN") ↔ showdownSection h ≠ []) ∧
    (showdownSection h ≠ [] → "*** SHOW DOWN ***" ∈ L) ∧
    (∀ a ∈ h.actions, a.street = "SHOWDOWN" → a.verb = "showed" →
      ∀ cd, a.cards = some cd → cd ≠ "" → (a.actor ++ ": shows [" ++ cd ++ "]") ∈ L) := by
  obtain ⟨sm, hsm, hL⟩ := Option.map_eq_some'.mp hw
  have hLeq : L = [headerLine h, tableLine h] ++ seatLines h ++ blindLines h ++
      holeLines h ++ streetSection h "PREFLOP" "HOLE CARDS" ++ streetSection h "FLOP" "FLOP" ++
      streetSection h "TURN" "TURN" ++ streetSection h "RIVER" "RIVER" ++
      showdownSection h ++ sm := hL.symm
  have hsub : ∀ x ∈ showdownSection h, x ∈ L := by
    intro x hx
    rw [hLeq]
    refine List.mem_append.mpr (Or.inl ?_)
    exact List.mem_append.mpr (Or.inr hx)
  have hfilter : (h.actions.filter (fun a => a.street == "SHOWDOWN") ≠ []) ↔
      ∃ a ∈ h.actions, a.street = "SHOWDOWN" := by
    rw [ne_eq, List.filter_eq_nil_iff]
    push_neg
    constructor
    · rintro ⟨a, ha, hp⟩
      exact ⟨a, ha, by simpa using hp⟩
    · rintro ⟨a, ha, hp⟩
      exact ⟨a, ha, by simp [hp]⟩
  have hsection : showdownSection h ≠ [] ↔
      h.actions.filter (fun a => a.street == "SHOWDOWN") ≠ [] := by
    unfold showdownSection
    dsimp only
    constructor
    · intro hne hcontra
      apply hne
      rw [if_pos (by simp [hcontra])]
    · intro hne
      rw [if_neg (by simpa using hne)]
      simp
  refine ⟨?_, ?_, ?_⟩
  · rw [hsection]; exact hfilter.symm
  · intro hne
    apply hsub
    unfold showdownSection
    rw [if_neg (by simpa using hsection.mp hne)]
    exact List.mem_cons_self _ _
  · intro a ha hst hverb cd hcd hcde
    apply hsub
    have hmemf : a ∈ h.actions.filter (fun a => a.street == "SHOWDOWN") :=
      List.mem_filter.mpr ⟨ha, by simp [hst]⟩
    have hne : h.actions.filter (fun a => a.street == "SHOWDOWN") ≠ [] := by
      intro hcontra
      rw [hcontra] at hmemf
      exact absurd hmemf (by simp)
    unfold showdownSection
    rw [if_neg (by simpa using hne)]
    refine List.mem_cons_of_mem _ (List.mem_filterMap.mpr ⟨a, hmemf, ?_⟩)
    rw [if_pos (by simp [hverb]), hcd]
    dsimp only
    rw [if_pos hcde]

/-- C7 counterexample input: after a showdown marker, a checks line produces
an action tagged SHOWDOWN whose verb is checks, so the showdown header is
rendered although no action has the showed verb. -/
def c7chunk : String := "*** SHOW DOWN ***" ++ strOf ['\n'] ++ "Alice: checks"

theorem C7_counterexample :
    ((parseOne c7chunk).bind writeLines).map (fun L => L.contains "*** SHOW DOWN ***") =
        some true ∧
      (parseOne c7chunk).map (fun h => h.actions.any (fun a => a.verb == "showed")) =
        some false := by decide

/-- C7 witness data: a record with one showed action at showdown. -/
def c7hand : Hand :=
  { defaultHand with
    actions := [{ street := "SHOWDOWN", actor := "Ann", verb := "showed",
                  cards := some "Ah Kh", raw := "Ann showed [Ah Kh]" }] }

/-- The lines rendered for `c7hand`. -/
def c7out : List String :=
  [headerLine c7hand, tableLine c7hand, holeMarker, "*** SHOW DOWN ***", "Ann: shows [Ah Kh]"]

theorem C7_witness :
    ((∃ a ∈ c7hand.actions, a.street = "SHOWDOWN") ↔ showdownSection c7hand ≠ []) ∧
    (showdownSection c7hand ≠ [] → "*** SHOW DOWN ***" ∈ c7out) ∧
    (∀ a ∈ c7hand.actions, a.street = "SHOWDOWN" → a.verb = "showed" →
      ∀ cd, a.cards = some cd → cd ≠ "" → (a.actor ++ ": shows [" ++ cd ++ "]") ∈ c7out) :=
  C7_theorem c7hand c7out (by decide)

/-!  ## Strip lemmas and the header line (C8) -/

theorem head?_append_left {α : Type} {l l2 : List α} {c : α} (h : l.head? = some c) :
    (l ++ l2).head? = some c := by
  cases l with
  | nil => exact absurd h (by simp)
  | cons a t => simpa using h

theorem getLast?_append_some {α : Type} {l2 : List α} {c : α} (l : List α)
    (h : l2.getLast? = some c) : (l ++ l2).getLast? = some c := by
  cases hl : l2 with
  | nil => rw [hl] at h; exact absurd h (by simp)
  | cons a t =>
    rw [List.getLast?_append_cons, ← hl, h]

theorem rstripL_eq_self (l : List Char) (c : Char) (hc : l.getLast? = some c)
    (h : wsC c = false) : rstripL l = l := by
  unfold rstripL
  cases hr : l.reverse with
  | nil =>
    have : l = [] := by simpa using congrArg List.reverse hr
    rw [this] at hc
    exact absurd hc (by simp)
  | cons a t =>
    have hac : a = c := by
      rw [← List.head?_reverse, hr] at hc
      simpa using hc
    subst hac
    rw [List.dropWhile_cons, h]
    rw [if_neg (by simp), ← hr, List.reverse_reverse]

theorem lstripL_eq_self (l : List Char) (c : Char) (hc : l.head? = some c)
    (h : wsC c = false) : lstripL l = l := by
  unfold lstripL
  cases l with
  | nil => rfl
  | cons a t =>
    have hac : a = c := by simpa using hc
    subst hac
    rw [List.dropWhile_cons, h]
    simp

/-- `strip()` is the identity when both end characters are non-whitespace. -/
theorem pyStrip_eq_self (s : String) (c1 c2 : Char) (hh : s.data.head? = some c1)
    (hl : s.data.getLast? = some c2) (h1 : wsC c1 = false) (h2 : wsC c2 = false) :
    pyStrip s = s := by
  unfold pyStrip
  rw [rstripL_eq_self s.data c2 hl h2, lstripL_eq_self s.data c1 hh h1]
  exact String.ext rfl

theorem rstripL_append_ws (l : List Char) (c : Char) (hc : wsC c = true) :
    rstripL (l ++ [c]) = rstripL l := by
  unfold rstripL
  rw [List.reverse_append]
  simp [List.dropWhile_cons, hc]

/-- `strip()` of a non-whitespace-headed string followed by space-dash-space
keeps everything through the dash. -/
theorem pyStrip_dash_space (x : String) (c1 : Char) (hh : x.data.head? = some c1)
    (h1 : wsC c1 = false) : pyStrip (x ++ " - ") = x ++ " -" := by
  unfold pyStrip
  have hd : (x ++ " - ").data = (x.data ++ [' ', '-']) ++ [' '] := by
    rw [String.data_append]
    simp
  rw [hd, rstripL_append_ws _ _ (by decide)]
  have hd2 : x.data ++ [' ', '-'] = (x.data ++ [' ']) ++ ['-'] := by simp
  rw [hd2, rstripL_eq_self _ '-' (List.getLast?_concat _) (by decide)]
  have hd3 : (x.data ++ [' ']) ++ ['-'] = x.data ++ [' ', '-'] := by simp
  rw [hd3, lstripL_eq_self _ c1 (head?_append_left hh) h1]
  apply String.ext
  rw [String.data_append]
  rfl

/-- The header text before the final `strip()`. -/
def headerRaw (h : Hand) : String :=
  "PokerStars Hand #" ++ hidOr h ++ ": " ++ h.game ++ " " ++ stakesStr h ++ " - " ++ dtStr h

theorem headerLine_eq_strip (h : Hand) : headerLine h = pyStrip (headerRaw h) := rfl

/-- The header raw text starts with the letter P. -/
theorem headerRaw_head (h : Hand) : (headerRaw h).data.head? = some 'P' := by
  unfold headerRaw
  repeat rw [String.data_append]
  repeat apply head?_append_left
  rfl

/-- C8 (amended): when the big blind is non-zero the stakes fragment is the
parenthesised pair of two-decimal amounts with the currency glyph, the
header line is the first rendered line, and it consists of the site label,
hand id (or placeholder), game label, stakes fragment, and the formatted
timestamp (or a bare dash when the date is absent, the trailing space being
stripped). -/
theorem C8_theorem (h : Hand) (hbb : h.stakes.2 ≠ 0) :
    stakesStr h =
      "(" ++ curOf h ++ fmt2 h.stakes.1 ++ "/" ++ curOf h ++ fmt2 h.stakes.2 ++ ")" ∧
    (∀ L, writeLines h = some L → L.head? = some (headerLine h)) ∧
    (∀ d, h.date_utc = some d →
      headerLine h = "PokerStars Hand #" ++ hidOr h ++ ": " ++ h.game ++ " " ++
        stakesStr h ++ " - " ++ strftimeET d) ∧
    (h.date_utc = none →
      headerLine h = "PokerStars Hand #" ++ hidOr h ++ ": " ++ h.game ++ " " ++
        stakesStr h ++ " -") := by
  have hstakes : stakesStr h =
      "(" ++ curOf h ++ fmt2 h.stakes.1 ++ "/" ++ curOf h ++ fmt2 h.stakes.2 ++ ")" := by
    unfold stakesStr
    rw [if_pos hbb]
  refine ⟨hstakes, ?_, ?_, ?_⟩
  · intro L hw
    obtain ⟨sm, hsm, hL⟩ := Option.map_eq_some'.mp hw
    rw [← hL]
    rfl
  · intro d hd
    have hdt : dtStr h = strftimeET d := by unfold dtStr; rw [hd]
    have hlast : (headerRaw h).data.getLast? = some 'T' := by
      unfold headerRaw
      rw [hdt]
      unfold strftimeET
      repeat rw [String.data_append]
      repeat apply getLast?_append_some
      decide
    rw [headerLine_eq_strip,
      pyStrip_eq_self _ 'P' 'T' (headerRaw_head h) hlast (by decide) (by decide)]
    unfold headerRaw
    rw [hdt]
  · intro hd
    have hdt : dtStr h = "" := by unfold dtStr; rw [hd]
    have hraw : headerRaw h =
        ("PokerStars Hand #" ++ hidOr h ++ ": " ++ h.game ++ " " ++ stakesStr h) ++ " - " := by
      unfold headerRaw
      rw [hdt, String.append_empty]
    have hh2 : ("PokerStars Hand #" ++ hidOr h ++ ": " ++ h.game ++ " " ++
        stakesStr h).data.head? = some 'P' := by
      repeat rw [String.data_append]
      repeat apply head?_append_left
      rfl
    rw [headerLine_eq_strip, hraw, pyStrip_dash_space _ 'P' hh2 (by decide)]

/-- C8 counterexample: a default record (big blind zero, extracted from the
one-line chunk x) renders a header line with no stakes fragment at all. -/
theorem C8_counterexample :
    parseOne "x" = some defaultHand ∧ defaultHand.stakes.2 = 0 ∧
      stakesStr defaultHand = "" ∧
      (headerLine defaultHand).data.all (fun c => c != '(') = true ∧
      (writeLines defaultHand).map (fun L => L.head?) =
        some (some (headerLine defaultHand)) := by decide

/-- C8 witness data: non-zero stakes, a hand id, and a timestamp. -/
def c8hand : Hand :=
  { defaultHand with
    hand_id := some "123"
    stakes := (mkRat 1 10, mkRat 1 4)
    date_utc := some { year := 2024, month := 1, day := 1, hour := 10, minute := 0, second := 0 } }

theorem C8_witness :
    stakesStr c8hand =
      "(" ++ curOf c8hand ++ fmt2 c8hand.stakes.1 ++ "/" ++ curOf c8hand ++
        fmt2 c8hand.stakes.2 ++ ")" ∧
    (∀ L, writeLines c8hand = some L → L.head? = some (headerLine c8hand)) ∧
    (∀ d, c8hand.date_utc = some d →
      headerLine c8hand = "PokerStars Hand #" ++ hidOr c8hand ++ ": " ++ c8hand.game ++ " " ++
        stakesStr c8hand ++ " - " ++ strftimeET d) ∧
    (c8hand.date_utc = none →
      headerLine c8hand = "PokerStars Hand #" ++ hidOr c8hand ++ ": " ++ c8hand.game ++ " " ++
        stakesStr c8hand ++ " -") :=
  C8_theorem c8hand (by decide)

/-!  ## The remaining claims: C3, C5, C1, C9 -/

/-- C3 counterexample input: two dealt-to lines in one chunk. -/
def c3chunk : String := "Dealt to Alice [Ah Kh]" ++ strOf ['\n'] ++ "Dealt to Bob [2c 3d]"

/-- C3 counterexample: the first matching line is the Alice line, but the
extracted hero is Bob — the last match wins, not the first. -/
theorem C3_counterexample :
    matchDealt "Dealt to Alice [Ah Kh]" = some { name := "Alice", cards := "Ah Kh" } ∧
    (cleanLines c3chunk).head? = some "Dealt to Alice [Ah Kh]" ∧
    (parseOne c3chunk).map (fun h => (h.hero, h.hero_hole)) =
      some (some "Bob", some "2c 3d") := by decide

/-- C3 (amended): the extractor records hero name and hole cards from the
last matching dealt-to line of the chunk (each match overwrites the
previous one); the fields stay absent when no line matches. -/
theorem C3_theorem (t : String) (h : Hand) (hp : parseOne t = some h) :
    (h.hero, h.hero_hole) =
      (match ((cleanLines t).filterMap matchDealt).getLast? with
       | some c => (some (normalizeName c.name), some (pyStrip c.cards))
       | none => (none, none)) :=
  parseOne_hero t h hp

/-- C3 witness record: what the counterexample chunk extracts to. -/
def c3hand : Hand := { defaultHand with hero := some "Bob", hero_hole := some "2c 3d" }

theorem C3_witness :
    (c3hand.hero, c3hand.hero_hole) =
      (match ((cleanLines c3chunk).filterMap matchDealt).getLast? with
       | some c => (some (normalizeName c.name), some (pyStrip c.cards))
       | none => (none, none)) :=
  C3_theorem c3chunk c3hand (by decide)

/-- C5 counterexample input: a showdown marker carrying a board. -/
def c5chunk : String := "*** SHOW DOWN *** [As Ks Qs]"

/-- C5 counterexample: the extracted board mapping has a SHOWDOWN entry. -/
theorem C5_counterexample :
    (parseOne c5chunk).map (fun h => h.board) = some [("SHOWDOWN", "[As Ks Qs]")] := by decide

/-- C5 (amended): every board entry of an extracted record is keyed by one
of the six street tags (possibly PREFLOP, SHOWDOWN or SUMMARY, not only
FLOP/TURN/RIVER) and exists only because a street-marker line of the chunk
explicitly carried a non-empty board for the street it entered. -/
theorem C5_theorem (t : String) (h : Hand) (hp : parseOne t = some h) :
    ∀ kv ∈ h.board, kv.1 ∈ ["PREFLOP", "FLOP", "TURN", "RIVER", "SHOWDOWN", "SUMMARY"] ∧
      ∃ ln ∈ cleanLines t, boardFromLine ln kv :=
  parseOne_board t h hp

/-- C5 witness input: a flop marker with a board. -/
def c5wchunk : String := "*** FLOP *** [Ah Kh Qh]"

/-- C5 witness record: what the witness chunk extracts to. -/
def c5whand : Hand := { defaultHand with board := [("FLOP", "[Ah Kh Qh]")] }

theorem C5_witness :
    ("FLOP", "[Ah Kh Qh]").1 ∈ ["PREFLOP", "FLOP", "TURN", "RIVER", "SHOWDOWN", "SUMMARY"] ∧
      ∃ ln ∈ cleanLines c5wchunk, boardFromLine ln ("FLOP", "[Ah Kh Qh]") :=
  C5_theorem c5wchunk c5whand (by decide) ("FLOP", "[Ah Kh Qh]") (by decide)

/-- C1 counterexample input: a posts line whose amount is not numeric. -/
def c1chunk : String := holeMarker ++ strOf ['\n'] ++ "Alice: posts small blind abc"

/-- C1 counterexample: the malformed posts line does not match the posts
pattern, extraction still produces a record (no per-chunk error), and the
blind entries are silently left absent. -/
theorem C1_counterexample :
    matchPosts "Alice: posts small blind abc" = none ∧
    (parseOne c1chunk).isSome = true ∧
    (parseOne c1chunk).map (fun h => (h.blinds.sb, h.blinds.bb)) = some (none, none) := by
  decide

/-- C1 input with a malformed chunk followed by a well-formed one. -/
def c1input : String :=
  c1chunk ++ strOf ['\n'] ++ strOf ['\n'] ++ holeMarker ++ strOf ['\n'] ++
    "Bob: posts small blind 0.5"

/-- C1 (amended): extraction never fails — every chunk with a non-blank line
yields a record — and a posts line with a non-numeric amount silently leaves
the blind mapping entry absent while the other chunks of the same input are
extracted unaffected. -/
theorem C1_theorem :
    (∀ c : String, (parseOne c).isSome = true ↔ cleanLines c ≠ []) ∧
    (parse c1input).map (fun h => (h.blinds.sb, h.blinds.bb)) =
      [(none, none), (some ("Bob", mkRat 1 2), none)] := by
  constructor
  · intro c
    unfold parseOne
    cases hl : cleanLines c <;> simp [hl]
  · decide

theorem C1_witness : (parseOne "y").isSome = true :=
  (C1_theorem.1 "y").mpr (by decide)

/-- C9 input: a collected action line with no amount. -/
def c9chunk : String := "x" ++ strOf ['\n'] ++ "Alice: collected"

/-- C9: the extractor accepts the chunk and produces a record whose only
action has the collected verb and an absent amount (legal per the §3 data
model); rendering that record fails — the summary section formats the
absent amount with the two-decimal format, which raises in Python (modelled
as the `none` result of `write`). -/
theorem C9_theorem :
    (parseOne c9chunk).isSome = true ∧
    (parseOne c9chunk).map (fun h => h.actions.map (fun a => (a.verb, a.amount))) =
      some [("collected", none)] ∧
    ((parseOne c9chunk).bind write) = none := by decide

end Converter
